import Mathlib

/-!
Verification of the EWB (Evaluation Workbench) core against its
natural-language specification.

The development shallowly embeds the Python source of the repository:

* `src/restapi/core/entities/model.py` — the weighted-payload encoding
  `Model.sum_up_to` and the doc-topic ingestion `get_model_info_update`;
* `src/restapi/core/entities/corpus.py` — XML cleaning and date
  normalization (`clean_xml_string`, `parseTimeINSTANT`);
* `src/restapi/core/client/base/solr_client.py` — response normalization
  (`SolrResp.from_requests_response`) and batched indexing
  (`index_documents` / `index_batch`);
* `src/restapi/core/client/ewb_solr_client.py` — the indexer operations
  `index_corpus`, `delete_corpus` and the score normalization of
  `do_Q5` / `do_Q12`.

Machine floats of the source are embedded as rationals (`ℚ`); the
stateful Solr engine is embedded as an explicit state record with pure
transition functions; Python exceptions are embedded as `Option`
results (`none` = the call raises).
-/
namespace EWB

/-! # Definitions: the shallow embedding of the source -/

/-! ## Weighted-payload encoding (`Model.sum_up_to`, model.py lines 57-78)

Python source:
```
x = np.array(list(map(np.int_, vector*max_sum))).ravel()
pos_idx = list(np.where(x != 0)[0])
while np.sum(x) != max_sum:
    idx = random.choice(pos_idx)
    x[idx] += 1
return x
```

`np.int_` truncates toward zero; on the non-negative inputs all claims
quantify over it coincides with the floor, which is how it is embedded.
The random draws of `random.choice` are embedded nondeterministically:
the loop is parameterized by the list of indices the random source
produces, and a run is *valid* (returns `some`) exactly when every
drawn index lies in `pos_idx` (i.e. has nonzero probability) and the
loop terminates with the drawn list exhausted.  `random.choice` on an
empty `pos_idx` raises `IndexError`, hence when `pos_idx = []` and the
running sum differs from `max_sum` no run is valid. -/
/-- Python `np.int_`: truncation toward zero of a rational (`num.tdiv den`). -/
def pyInt (q : ℚ) : ℤ :=
  q.num.tdiv q.den

/-- Source line `x = np.array(list(map(np.int_, vector*max_sum)))`: entrywise scale
and truncate (= floor on non-negative entries). -/
def floorScaled (v : List ℚ) (S : ℕ) : List ℤ :=
  v.map (fun q => pyInt (q * (S : ℚ)))

/-- Source line `pos_idx = list(np.where(x != 0)[0])`: the indices of nonzero
entries, computed once before the loop. -/
def posIdx (x : List ℤ) : List ℕ :=
  (List.range x.length).filter (fun i => x.getD i 0 != 0)

/-- Source line `x[idx] += 1`. -/
def bump (x : List ℤ) (i : ℕ) : List ℤ :=
  x.set i (x.getD i 0 + 1)

/-- The `while np.sum(x) != max_sum` loop, driven by the list of indices
the random source draws.  Returns `some` final vector when the drawn
indices make a complete valid run. -/
def sumLoop (S : ℕ) (pos : List ℕ) : List ℤ → List ℕ → Option (List ℤ)
  | x, [] => if x.sum = (S : ℤ) then some x else none
  | x, p :: ps =>
      if x.sum = (S : ℤ) then none
      else if p ∈ pos then sumLoop S pos (bump x p) ps else none

/-- Function `Model.sum_up_to(vector, max_sum)` under the drawn index list
`picks`. -/
def sum_up_to (v : List ℚ) (S : ℕ) (picks : List ℕ) : Option (List ℤ) :=
  sumLoop S (posIdx (floorScaled v S)) (floorScaled v S) picks

/-- The routine can return a value for these arguments: some sequence of
random draws makes the loop terminate normally. -/
def returnsSome (v : List ℚ) (S : ℕ) : Prop :=
  ∃ picks x, sum_up_to v S picks = some x

/-- Index `i` of the result can end up strictly above its floored
starting value in some run. -/
def canExceedFloor (v : List ℚ) (S : ℕ) (i : ℕ) : Prop :=
  ∃ picks x, sum_up_to v S picks = some x ∧
    (floorScaled v S).getD i 0 < x.getD i 0

/-! ## Score normalization of Q5 / Q12
(ewb_solr_client.py lines 727-731 and 1090-1095)

Python source, identical in `do_Q5` and `do_Q12`:
```
for el in results.docs:
    el['score'] *= (100/(self.max_sum^2))
```
In Python `^` is bitwise XOR, not exponentiation, so the factor is
`100/(max_sum XOR 2)`, not `100/max_sum²`. -/
/-- The per-document score update the code performs (`^` = XOR). -/
def normalize_score (max_sum : ℕ) (score : ℚ) : ℚ :=
  score * (100 / ((max_sum ^^^ 2 : ℕ) : ℚ))

/-- Modelled from the spec: the intended normalization
`score · 100/S²` ("multiplied by `100 / S²`"). -/
def normalize_score_spec (max_sum : ℕ) (score : ℚ) : ℚ :=
  score * (100 / ((max_sum ^ 2 : ℕ) : ℚ))

/-- Step 6 of `do_Q5` / `do_Q12`: every returned document's score is
rescaled by the same factor. -/
def normalize_scores (max_sum : ℕ) (scores : List ℚ) : List ℚ :=
  scores.map (normalize_score max_sum)

/-! ## Doc-topic ingestion pairing
(model.py `Model.get_model_info_update`, lines 147-191)

Python source for the pairing step:
```
doc_tpc_rpr = [get_doc_str_rpr(thetas_dense[row, :], 1000)
               for row in range(len(thetas_dense))]
model_key = 'doctpc_' + self.name
df = pd.DataFrame(list(zip(ids_corpus, doc_tpc_rpr)),
                  columns=['id', model_key])
```
The encoded payload strings (`doc_tpc_rpr`, one per matrix row, built
with `sum_up_to` above) are paired with the persisted id list by
Python's `zip`, which silently truncates to the shorter list: no length
check exists anywhere in the function. -/
/-- Source line `list(zip(ids_corpus, doc_tpc_rpr))`. -/
def pair_ids_with_rpr (ids_corpus : List String) (doc_tpc_rpr : List String) :
    List (String × String) :=
  List.zip ids_corpus doc_tpc_rpr

/-! ## XML cleaning and date normalization (corpus.py lines 11-60)

Python source:
```
def is_valid_xml_char_ordinal(i):
    return (0x20 <= i <= 0xD7FF or i in (0x9, 0xA, 0xD)
            or 0xE000 <= i <= 0xFFFD or 0x10000 <= i <= 0x10FFFF)

def clean_xml_string(s):
    return "".flatten(c for c in s if is_valid_xml_char_ordinal(ord(c)))

def parseTimeINSTANT(time):
    format_string = '%Y-%m-%d %H:%M:%S'
    if isinstance(time, str) and time != "foo":
        dt = datetime.strptime(time, format_string)
        dt_utc = dt.astimezone(pytz.UTC)
        return clean_xml_string(dt_utc.strftime('%Y-%m-%dT%H:%M:%S.%fZ'))
    elif time == "foo":
        return clean_xml_string("")
    else:
        if math.isnan(time):
            return clean_xml_string("")
```
Every string other than the literal `"foo"` is fed to `strptime`, which
raises `ValueError` on anything not matching the format — including the
empty string.  `astimezone` on the naive parsed datetime attaches the
process-local timezone; the embedding takes local time = UTC, under
which it is the identity on the wall-clock fields (the spec's wire
format assumes UTC throughout). -/
def is_valid_xml_char_ordinal (i : ℕ) : Bool :=
  (0x20 ≤ i && i ≤ 0xD7FF) || i == 0x9 || i == 0xA || i == 0xD ||
  (0xE000 ≤ i && i ≤ 0xFFFD) || (0x10000 ≤ i && i ≤ 0x10FFFF)

def clean_xml_string (s : String) : String :=
  ⟨s.data.filter (fun c => is_valid_xml_char_ordinal c.toNat)⟩

/-- Wall-clock fields of a parsed `datetime` (microsecond is always zero
for this format, so it is omitted). -/
structure PyDateTime where
  year : ℕ
  month : ℕ
  day : ℕ
  hour : ℕ
  minute : ℕ
  second : ℕ
deriving DecidableEq

def digitVal (c : Char) : ℕ := c.toNat - 48

/-- Modelled: CPython `datetime.strptime(s, '%Y-%m-%d %H:%M:%S')` (an
external library call).  The embedding accepts the zero-padded canonical
form with in-range fields and returns `none` where CPython raises
`ValueError` (day-of-month validation is simplified to `1..31`; the
claims only exercise valid dates and the empty string). -/
def strptime_ymd_hms (s : String) : Option PyDateTime :=
  match s.data with
  | [y1, y2, y3, y4, '-', mo1, mo2, '-', d1, d2, ' ',
     h1, h2, ':', mi1, mi2, ':', e1, e2] =>
      if ([y1, y2, y3, y4, mo1, mo2, d1, d2, h1, h2, mi1, mi2, e1, e2].all
          Char.isDigit) then
        let year := ((digitVal y1 * 10 + digitVal y2) * 10 + digitVal y3) * 10 +
          digitVal y4
        let month := digitVal mo1 * 10 + digitVal mo2
        let day := digitVal d1 * 10 + digitVal d2
        let hour := digitVal h1 * 10 + digitVal h2
        let minute := digitVal mi1 * 10 + digitVal mi2
        let second := digitVal e1 * 10 + digitVal e2
        if 1 ≤ month ∧ month ≤ 12 ∧ 1 ≤ day ∧ day ≤ 31 ∧
            hour ≤ 23 ∧ minute ≤ 59 ∧ second ≤ 59 then
          some ⟨year, month, day, hour, minute, second⟩
        else none
      else none
  | _ => none

def pad2 (n : ℕ) : String :=
  if n < 10 then "0" ++ toString n else toString n

def pad4 (n : ℕ) : String :=
  if n < 10 then "000" ++ toString n
  else if n < 100 then "00" ++ toString n
  else if n < 1000 then "0" ++ toString n
  else toString n

/-- Source call `dt_utc.strftime('%Y-%m-%dT%H:%M:%S.%fZ')`: the `%f` field renders the
microsecond field, always `000000` here. -/
def strftime_instant (dt : PyDateTime) : String :=
  pad4 dt.year ++ "-" ++ pad2 dt.month ++ "-" ++ pad2 dt.day ++ "T" ++
  pad2 dt.hour ++ ":" ++ pad2 dt.minute ++ ":" ++ pad2 dt.second ++ ".000000Z"

/-- Function `parseTimeINSTANT(time)`.  Input `none` is the NaN a null timestamp
cell becomes after `dt.strftime` (non-string, `math.isnan` true); output
`none` is an uncaught `ValueError` escaping the function. -/
def parseTimeINSTANT (time : Option String) : Option String :=
  match time with
  | some s =>
      if s ≠ "foo" then
        (strptime_ymd_hms s).map (fun dt => clean_xml_string (strftime_instant dt))
      else some (clean_xml_string "")
  | none => some (clean_xml_string "")

/-! ## Engine response normalization
(solr_client.py `SolrResp.from_requests_response`, lines 136-188)

Python source (abridged):
```
status_code = 400; data = []; text = ""; results = {}
try:
    resp = resp.json()
    if 'responseHeader' in resp and resp['responseHeader']['status'] == 0:
        status_code = 200
    else:
        status_code = resp['responseHeader']['status']
        text = resp['error']['msg']
    ...
except:
    tree = ET.fromstring(resp.text)
    status = tree.find('.//int[@name="status"]')
    if status.text == '0': status_code = 200
    else:
        status_code = int(status.text)
        text = tree.find('.//str[@name="msg"]').text
return SolrResp(status_code, text, data, results)
```
Note the exception structure: inside the `try`, `resp` is rebound to the
decoded dict, so once JSON decoding has succeeded any later `KeyError`
lands in the `except` block where `resp.text` raises `AttributeError`
(a dict has no `.text`), which propagates.  In the `except` block,
`ET.fromstring` on a non-XML body, a missing `int[@name="status"]`
element (`status.text` on `None`), or a missing `str[@name="msg"]`
element all raise uncaught exceptions.  The initial `status_code = 400`
is therefore never returned: every path either assigns a status or
raises. -/
/-- The response body as the two parsers see it.  `jsonOk hdr err`: the
body decodes as JSON; `hdr` is `responseHeader.status` when that key
chain exists, `err` is `error.msg` when present.  `notJson xml`: JSON
decoding raises; `xml = some (st, msg)` when the body re-parses as XML
with an `int[@name="status"]` element (and optionally a
`str[@name="msg"]`), `none` when it does not. -/
inductive RespBody where
  | jsonOk (hdrStatus : Option ℤ) (errMsg : Option String)
  | notJson (xml : Option (ℤ × Option String))
deriving DecidableEq

/-- Function `SolrResp.from_requests_response`, reduced to the `(status_code,
text)` pair it constructs; `none` = an uncaught exception escapes. -/
def from_requests_response : RespBody → Option (ℤ × String)
  | .jsonOk (some 0) _ => some (200, "")
  | .jsonOk (some s) (some msg) => some (s, msg)
  | .jsonOk (some _) none => none
  | .jsonOk none _ => none
  | .notJson (some (0, _)) => some (200, "")
  | .notJson (some (s, some msg)) => some (s, msg)
  | .notJson (some (_, none)) => none
  | .notJson none => none

/-! ## Batched indexing
(solr_client.py `SolrClient.index_documents`, lines 432-473)

Python source:
```
docs_batch = []
index_from = 0
to_index = len(json_docs)
for index, doc in enumerate(json_docs):
    docs_batch.append(doc)
    if index % batch_size == 0 and index != 0:
        self.index_batch(docs_batch, col_name, to_index, index_from, index)
        docs_batch = []
        index_from = index + 1
if docs_batch:
    self.index_batch(docs_batch, col_name, to_index, index_from, index)
```
`index_batch` posts its batch to the engine verbatim; the embedding
records the batches it is handed, in order. -/
/-- The `for index, doc in enumerate(json_docs)` loop body together with
the trailing `if docs_batch:` flush; returns the successive arguments of
`index_batch`. -/
def batchLoop {α : Type} (batch_size : ℕ) :
    List (ℕ × α) → List α → List (List α)
  | [], docs_batch => if docs_batch.isEmpty then [] else [docs_batch]
  | (index, doc) :: rest, docs_batch =>
      let b := docs_batch ++ [doc]
      if index % batch_size = 0 ∧ index ≠ 0 then b :: batchLoop batch_size rest []
      else batchLoop batch_size rest b

/-- Function `SolrClient.index_documents(json_docs, col_name, batch_size)` as the
sequence of batches sent to `index_batch`. -/
def index_documents {α : Type} (json_docs : List α) (batch_size : ℕ) :
    List (List α) :=
  batchLoop batch_size json_docs.enum []

/-! ## Indexer operations on the engine state
(ewb_solr_client.py `index_corpus` lines 39-106, `delete_corpus` lines
177-220; `create_collection` is solr_client.py lines 290-323)

The engine is embedded as an explicit state: the set of existing
collections, the documents of the registry collection (`self.corpus_col`,
configured as `Corpora`), and a per-collection count of documents sent
via `index_documents` (enough to observe whether a call wrote anything).
`create_collection` first lists collections and answers 409 without
creating when the name exists — exactly the client-side pre-check of the
source.  The engine itself is assumed healthy for creation/queries;
deletions take an explicit outcome oracle because claim C9 is about
mid-operation failures. -/
/-- One document of the registry collection: `{id, corpus_name, models}`
(the `fields` array plays no role in the claims and is omitted). -/
structure RegDoc where
  rid : ℤ
  corpus_name : String
  models : List String
deriving DecidableEq

/-- Engine state visible to the indexer. -/
structure EngineState where
  colls : List String
  registry : List RegDoc
  corpusDocs : List (String × ℕ)
deriving DecidableEq

/-- Configured name of the registry collection (`self.corpus_col`,
default `Corpora`). -/
def corpusCol : String := "Corpora"

/-- Function `SolrClient.create_collection`: answers 409 without touching the
engine when the name is already listed, else creates it. -/
def create_collection (st : EngineState) (name : String) :
    EngineState × ℕ :=
  if name ∈ st.colls then (st, 409)
  else ({ st with colls := st.colls ++ [name] }, 200)

/-- Modelled: the Solr select on the registry with `sort=id desc`,
`rows=1`, `fl=id` (step 3.1 of `index_corpus`) returns the largest
stored id, or no document at all when the registry is empty. -/
def query_last_id (st : EngineState) : Option ℤ :=
  match st.registry with
  | [] => none
  | r :: rs => some (rs.foldl (fun a d => max a d.rid) r.rid)

/-- Effect of `index_documents(json_docs, corpus_name, ...)` on the
per-collection document counts. -/
def add_docs : List (String × ℕ) → String → ℕ → List (String × ℕ)
  | [], c, n => [(c, n)]
  | (a, m) :: t, c, n =>
      if a = c then (a, m + n) :: t else (a, m) :: add_docs t c n

/-- Function `EWBSolrClient.index_corpus`: create the corpus collection (stop on
409), ensure the registry exists, pick the new registry id (highest
existing id + 1 when the registry pre-existed, 1 when it was just
created), then write the registry record and the `ndocs` corpus
documents.  When the registry collection pre-exists but holds no
documents, `results.docs[0]` raises `IndexError` and the operation
aborts after the collection creations (the state so far is returned). -/
def index_corpus (st : EngineState) (corpus_name : String) (ndocs : ℕ) :
    EngineState :=
  let res := create_collection st corpus_name
  if res.2 = 409 then st
  else
    let res2 := create_collection res.1 corpusCol
    if res2.2 = 409 then
      match query_last_id res2.1 with
      | none => res2.1
      | some last =>
          let st3 := { res2.1 with
            registry := res2.1.registry ++ [RegDoc.mk (last + 1) corpus_name []] }
          { st3 with corpusDocs := add_docs st3.corpusDocs corpus_name ndocs }
    else
      let st3 := { res2.1 with
        registry := res2.1.registry ++ [RegDoc.mk 1 corpus_name []] }
      { st3 with corpusDocs := add_docs st3.corpusDocs corpus_name ndocs }

/-- The id value `results.docs[0]["id"]` of the registry query: the
largest stored id (meaningful only when the registry is non-empty). -/
def regMax : List RegDoc → ℤ
  | [] => 0
  | r :: rs => rs.foldl (fun a d => max a d.rid) r.rid

/-! ## Corpus deletion (ewb_solr_client.py `delete_corpus`, lines 177-220)

Python source (abridged):
```
_, sc = self.delete_collection(col_name=corpus_logical_name)
if sc != 200: return                       # step 2
sc, results = self.execute_query(q='corpus_name:'+name, fl="id,models")
if sc != 200: return                       # step 3
for model in results.docs[0]["models"]:    # step 4
    _, sc = self.delete_collection(col_name=model)
    if sc != 200: return
sc = self.delete_doc_by_id(col_name=self.corpus_col,
                           id=results.docs[0]["id"])  # step 5
```
Engine deletions may fail, so they take an outcome oracle (`ok` per
collection name, `okDoc` for the registry-document delete); a failed
request is still *issued* (it appears in the trace) but leaves the
state unchanged and aborts the remaining steps.  An absent registry
record makes `results.docs[0]` raise `IndexError`, aborting after step
2. -/
/-- An engine write request issued by `delete_corpus`. -/
inductive EngineOp where
  | deleteColl (name : String)
  | deleteDoc (col : String) (id : ℤ)
deriving DecidableEq

/-- Effect of a granted `delete_collection`. -/
def remove_coll (st : EngineState) (name : String) : EngineState :=
  { st with colls := st.colls.erase name }

/-- Effect of a granted `delete_doc_by_id` on the registry. -/
def remove_reg (st : EngineState) (id : ℤ) : EngineState :=
  { st with registry := st.registry.filter (fun r => r.rid != id) }

/-- Step 4: delete each model collection in turn, stopping at the first
failure.  Returns the state, the issued requests, and whether all
succeeded. -/
def delete_models (ok : String → Bool) :
    EngineState → List String → EngineState × List EngineOp × Bool
  | st, [] => (st, [], true)
  | st, m :: ms =>
      if ok m then
        let res := delete_models ok (remove_coll st m) ms
        (res.1, EngineOp.deleteColl m :: res.2.1, res.2.2)
      else (st, [EngineOp.deleteColl m], false)

/-- Function `EWBSolrClient.delete_corpus`, as the final state and the ordered
list of issued engine write requests. -/
def delete_corpus (st : EngineState) (name : String)
    (ok : String → Bool) (okDoc : Bool) : EngineState × List EngineOp :=
  if ok name then
    let st1 := remove_coll st name
    match st1.registry.find? (fun r => r.corpus_name == name) with
    | none => (st1, [EngineOp.deleteColl name])
    | some r =>
        let res := delete_models ok st1 r.models
        if res.2.2 then
          if okDoc then
            (remove_reg res.1 r.rid,
              EngineOp.deleteColl name :: res.2.1 ++
                [EngineOp.deleteDoc corpusCol r.rid])
          else
            (res.1,
              EngineOp.deleteColl name :: res.2.1 ++
                [EngineOp.deleteDoc corpusCol r.rid])
        else (res.1, EngineOp.deleteColl name :: res.2.1)
  else (st, [EngineOp.deleteColl name])

/-! # Lemmas and claim theorems -/

/-! ### Basic lemmas about the payload-encoding embedding -/
lemma pyInt_eq_floor (q : ℚ) (h : 0 ≤ q) : pyInt q = ⌊q⌋ := by
  rw [pyInt, Rat.floor_def]
  exact Int.tdiv_eq_ediv (Rat.num_nonneg.mpr h)
    (Int.le_of_lt (Int.natCast_pos.mpr q.pos))

lemma floorScaled_cons (q : ℚ) (v : List ℚ) (S : ℕ) :
    floorScaled (q :: v) S = pyInt (q * (S : ℚ)) :: floorScaled v S := rfl

lemma floorScaled_length (v : List ℚ) (S : ℕ) :
    (floorScaled v S).length = v.length := List.length_map _ _

lemma mem_posIdx (x : List ℤ) (i : ℕ) :
    i ∈ posIdx x ↔ i < x.length ∧ x.getD i 0 ≠ 0 := by
  simp [posIdx, List.mem_filter, List.mem_range]

lemma bump_length (x : List ℤ) (i : ℕ) : (bump x i).length = x.length :=
  List.length_set x i _

lemma bump_getD_self (x : List ℤ) (i : ℕ) (h : i < x.length) :
    (bump x i).getD i 0 = x.getD i 0 + 1 := by
  unfold bump
  rw [List.getD_eq_getElem?_getD, List.getElem?_set_self, List.getD_eq_getElem?_getD]
  · simp
  · exact h

lemma bump_getD_ne (x : List ℤ) (i j : ℕ) (h : j ≠ i) :
    (bump x i).getD j 0 = x.getD j 0 := by
  unfold bump
  rw [List.getD_eq_getElem?_getD, List.getElem?_set_ne (fun hij => h hij.symm),
    List.getD_eq_getElem?_getD]

lemma bump_getD_ge (x : List ℤ) (i j : ℕ) :
    x.getD j 0 ≤ (bump x i).getD j 0 := by
  rcases eq_or_ne j i with rfl | h
  · rcases lt_or_le j x.length with hlt | hge
    · rw [bump_getD_self x j hlt]; omega
    · unfold bump
      rw [List.set_eq_of_length_le hge]
  · rw [bump_getD_ne x i j h]

lemma sum_bump (x : List ℤ) (i : ℕ) (h : i < x.length) :
    (bump x i).sum = x.sum + 1 := by
  induction x generalizing i with
  | nil => simp at h
  | cons a xs ih =>
    cases i with
    | zero => simp [bump]; ring
    | succ n =>
      have hn : n < xs.length := by simpa using h
      have : bump (a :: xs) (n + 1) = a :: bump xs n := by
        simp [bump, List.getD_cons_succ]
      rw [this, List.sum_cons, List.sum_cons, ih n hn]
      ring

/-! ### Lemmas about the increment loop -/
lemma sumLoop_sum (S : ℕ) (pos : List ℕ) (picks : List ℕ) :
    ∀ x r, sumLoop S pos x picks = some r → r.sum = (S : ℤ) := by
  induction picks with
  | nil =>
    intro x r h
    unfold sumLoop at h
    split at h
    · cases h; assumption
    · cases h
  | cons p ps ih =>
    intro x r h
    unfold sumLoop at h
    split at h
    · cases h
    · split at h
      · exact ih _ _ h
      · cases h

lemma sumLoop_length (S : ℕ) (pos : List ℕ) (picks : List ℕ) :
    ∀ x r, sumLoop S pos x picks = some r → r.length = x.length := by
  induction picks with
  | nil =>
    intro x r h
    unfold sumLoop at h
    split at h
    · cases h; rfl
    · cases h
  | cons p ps ih =>
    intro x r h
    unfold sumLoop at h
    split at h
    · cases h
    · split at h
      · rw [ih _ _ h, bump_length]
      · cases h

lemma sumLoop_untouched (S : ℕ) (pos : List ℕ) (picks : List ℕ) :
    ∀ x r, sumLoop S pos x picks = some r →
      ∀ j, j ∉ pos → r.getD j 0 = x.getD j 0 := by
  induction picks with
  | nil =>
    intro x r h j _
    unfold sumLoop at h
    split at h
    · cases h; rfl
    · cases h
  | cons p ps ih =>
    intro x r h j hj
    unfold sumLoop at h
    split at h
    · cases h
    · split at h
      · rw [ih _ _ h j hj, bump_getD_ne]
        intro hji
        subst hji
        exact hj (by assumption)
      · cases h

lemma sumLoop_mono (S : ℕ) (pos : List ℕ) (picks : List ℕ) :
    ∀ x r, sumLoop S pos x picks = some r →
      ∀ j, x.getD j 0 ≤ r.getD j 0 := by
  induction picks with
  | nil =>
    intro x r h j
    unfold sumLoop at h
    split at h
    · cases h; exact le_refl _
    · cases h
  | cons p ps ih =>
    intro x r h j
    unfold sumLoop at h
    split at h
    · cases h
    · split at h
      · exact le_trans (bump_getD_ge x p j) (ih _ _ h j)
      · cases h

lemma sumLoop_none_of_posIdx_empty (S : ℕ) (x : List ℤ)
    (hx : x.sum ≠ (S : ℤ)) (picks : List ℕ) :
    sumLoop S [] x picks = none := by
  cases picks with
  | nil => unfold sumLoop; simp [hx]
  | cons p ps => unfold sumLoop; simp [hx]

lemma sumLoop_exists (S : ℕ) (pos : List ℕ) (hpos : pos ≠ []) :
    ∀ (k : ℕ) (x : List ℤ), (∀ p ∈ pos, p < x.length) →
      x.sum + (k : ℤ) = (S : ℤ) →
      ∃ picks r, sumLoop S pos x picks = some r := by
  intro k
  induction k with
  | zero =>
    intro x _ hsum
    refine ⟨[], x, ?_⟩
    unfold sumLoop
    simp at hsum
    simp [hsum]
  | succ n ih =>
    intro x hlen hsum
    obtain ⟨p, ps, rfl⟩ := List.exists_cons_of_ne_nil hpos
    have hp : p ∈ p :: ps := List.mem_cons_self p ps
    have hplen : p < x.length := hlen p hp
    have hne : x.sum ≠ (S : ℤ) := by omega
    have hb : (bump x p).sum + (n : ℤ) = (S : ℤ) := by
      rw [sum_bump x p hplen]; push_cast at hsum ⊢; omega
    obtain ⟨picks, r, hr⟩ := ih (bump x p)
      (fun q hq => by rw [bump_length]; exact hlen q hq) hb
    refine ⟨p :: picks, r, ?_⟩
    unfold sumLoop
    simp [hne, hp, hr]

/-! ### Bounds on the floored starting vector -/
lemma floorScaled_getD (v : List ℚ) (S : ℕ) (i : ℕ) (h : i < v.length) :
    (floorScaled v S).getD i 0 = pyInt (v.getD i 0 * (S : ℚ)) := by
  induction v generalizing i with
  | nil => simp at h
  | cons q vs ih =>
    cases i with
    | zero => rfl
    | succ n =>
      rw [floorScaled_cons, List.getD_cons_succ, List.getD_cons_succ]
      exact ih n (by simpa using h)

lemma getD_mem_of_lt {α : Type} (l : List α) (d : α) (i : ℕ) (h : i < l.length) :
    l.getD i d ∈ l := by
  rw [List.getD_eq_getElem l d h]
  exact List.getElem_mem h

lemma floorScaled_getD_nonneg (v : List ℚ) (S : ℕ)
    (hnn : ∀ q ∈ v, 0 ≤ q) (i : ℕ) :
    0 ≤ (floorScaled v S).getD i 0 := by
  rcases lt_or_le i v.length with h | h
  · have hv : 0 ≤ v.getD i 0 := hnn _ (getD_mem_of_lt v 0 i h)
    rw [floorScaled_getD v S i h, pyInt_eq_floor _ (by positivity)]
    exact Int.floor_nonneg.mpr (by positivity)
  · rw [List.getD_eq_default _ _ (by simpa [floorScaled_length] using h)]

lemma floorScaled_sum_le (v : List ℚ) (S : ℕ) (hnn : ∀ q ∈ v, 0 ≤ q) :
    ((floorScaled v S).sum : ℚ) ≤ v.sum * S := by
  induction v with
  | nil => simp [floorScaled]
  | cons q vs ih =>
    have hq : 0 ≤ q := hnn q (List.mem_cons_self q vs)
    have hqs : 0 ≤ q * (S : ℚ) := by positivity
    rw [floorScaled_cons, List.sum_cons, List.sum_cons, Int.cast_add]
    have h1 : (pyInt (q * (S : ℚ)) : ℚ) ≤ q * S := by
      rw [pyInt_eq_floor _ hqs]; exact Int.floor_le _
    have h2 := ih (fun p hp => hnn p (List.mem_cons_of_mem q hp))
    calc (pyInt (q * (S : ℚ)) : ℚ) + ((floorScaled vs S).sum : ℚ)
        ≤ q * S + vs.sum * S := add_le_add h1 h2
      _ = (q + vs.sum) * S := by ring

lemma floorScaled_sum_le_int (v : List ℚ) (S : ℕ)
    (hnn : ∀ q ∈ v, 0 ≤ q) (hsum : v.sum = 1) :
    (floorScaled v S).sum ≤ (S : ℤ) := by
  have h := floorScaled_sum_le v S hnn
  rw [hsum, one_mul] at h
  exact_mod_cast h

lemma floorScaled_sum_lt (v : List ℚ) (S : ℕ) (i : ℕ)
    (hnn : ∀ q ∈ v, 0 ≤ q) (hi : i < v.length)
    (hdown : (pyInt (v.getD i 0 * (S : ℚ)) : ℚ) < v.getD i 0 * S) :
    ((floorScaled v S).sum : ℚ) < v.sum * S := by
  induction v generalizing i with
  | nil => simp at hi
  | cons q vs ih =>
    have hq : 0 ≤ q := hnn q (List.mem_cons_self q vs)
    have hnn' : ∀ p ∈ vs, 0 ≤ p := fun p hp => hnn p (List.mem_cons_of_mem q hp)
    rw [floorScaled_cons, List.sum_cons, List.sum_cons, Int.cast_add]
    cases i with
    | zero =>
      rw [List.getD_cons_zero] at hdown
      have h2 := floorScaled_sum_le vs S hnn'
      calc (pyInt (q * (S : ℚ)) : ℚ) + ((floorScaled vs S).sum : ℚ)
          < q * S + vs.sum * S := add_lt_add_of_lt_of_le hdown h2
        _ = (q + vs.sum) * S := by ring
    | succ n =>
      rw [List.getD_cons_succ] at hdown
      have h1 : (pyInt (q * (S : ℚ)) : ℚ) ≤ q * S := by
        rw [pyInt_eq_floor _ (by positivity)]; exact Int.floor_le _
      have h2 := ih n hnn' (by simpa using hi) hdown
      calc (pyInt (q * (S : ℚ)) : ℚ) + ((floorScaled vs S).sum : ℚ)
          < q * S + vs.sum * S := add_lt_add_of_le_of_lt h1 h2
        _ = (q + vs.sum) * S := by ring

/-! ### Concrete evaluations used by the payload-encoding claims -/
lemma pyInt_natCast (n : ℕ) : pyInt ((n : ℚ)) = (n : ℤ) := by
  rw [pyInt_eq_floor _ (by positivity)]
  exact Int.floor_natCast n

lemma floorScaled_spec_vector :
    floorScaled [333/1000, 333/1000, 334/1000] 1000 = [333, 333, 334] := by
  have h1 : (333/1000 : ℚ) * ((1000 : ℕ) : ℚ) = ((333 : ℕ) : ℚ) := by norm_num
  have h2 : (334/1000 : ℚ) * ((1000 : ℕ) : ℚ) = ((334 : ℕ) : ℚ) := by norm_num
  show [pyInt ((333/1000 : ℚ) * ((1000 : ℕ) : ℚ)),
        pyInt ((333/1000 : ℚ) * ((1000 : ℕ) : ℚ)),
        pyInt ((334/1000 : ℚ) * ((1000 : ℕ) : ℚ))] = [333, 333, 334]
  rw [h1, h2, pyInt_natCast, pyInt_natCast]
  rfl

lemma sum_up_to_spec_vector :
    sum_up_to [333/1000, 333/1000, 334/1000] 1000 [] = some [333, 333, 334] := by
  unfold sum_up_to
  rw [floorScaled_spec_vector]
  unfold sumLoop
  norm_num

lemma floorScaled_half_half :
    floorScaled [1/2, 1/2] 1 = [0, 0] := by
  have h0 : pyInt ((1/2 : ℚ) * ((1 : ℕ) : ℚ)) = 0 := by
    rw [pyInt_eq_floor _ (by norm_num)]
    norm_num
  show [pyInt ((1/2 : ℚ) * ((1 : ℕ) : ℚ)), pyInt ((1/2 : ℚ) * ((1 : ℕ) : ℚ))] = [0, 0]
  rw [h0]

/-! ### Claim C1 -/
/-- C1 (amended): for every non-negative unit-sum vector `v` and positive
payload scale `S`, any vector that `Model.sum_up_to(v, S)` actually returns
consists of non-negative integers summing exactly to `S`, and a returning
run of the random increment loop exists whenever at least one entry of the
floored vector `⌊v·S⌋` is nonzero.  (The original claim promised a return
for *every* such `v` and `S`; when every entry floors to zero the loop
raises `IndexError` from `random.choice([])` instead — see the
counterexample — so the claim holds only under the extra nonzero-floor
proviso.  The concrete instance `v = [0.333, 0.333, 0.334]`, `S = 1000`
returns `[333, 333, 334]`: see the witness.) -/
theorem sum_up_to_payload_scale (v : List ℚ) (S : ℕ)
    (hnn : ∀ q ∈ v, 0 ≤ q) (hsum : v.sum = 1) (_hS : 0 < S) :
    (∀ picks x, sum_up_to v S picks = some x →
        x.sum = (S : ℤ) ∧ ∀ z ∈ x, 0 ≤ z) ∧
    ((∃ z ∈ floorScaled v S, z ≠ 0) → returnsSome v S) := by
  constructor
  · intro picks x hx
    unfold sum_up_to at hx
    refine ⟨sumLoop_sum S _ picks _ _ hx, ?_⟩
    intro z hz
    obtain ⟨i, hi, rfl⟩ := List.mem_iff_getElem.mp hz
    have hlen : x.length = (floorScaled v S).length :=
      sumLoop_length S _ picks _ _ hx
    have h1 : (floorScaled v S).getD i 0 ≤ x.getD i 0 :=
      sumLoop_mono S _ picks _ _ hx i
    have h2 : 0 ≤ (floorScaled v S).getD i 0 :=
      floorScaled_getD_nonneg v S hnn i
    rw [List.getD_eq_getElem x 0 hi] at h1
    omega
  · rintro ⟨z, hz, hzne⟩
    obtain ⟨j, hj, rfl⟩ := List.mem_iff_getElem.mp hz
    have hjmem : j ∈ posIdx (floorScaled v S) := by
      rw [mem_posIdx]
      exact ⟨hj, by rwa [List.getD_eq_getElem _ 0 hj]⟩
    have hpos : posIdx (floorScaled v S) ≠ [] := List.ne_nil_of_mem hjmem
    have hle : (floorScaled v S).sum ≤ (S : ℤ) :=
      floorScaled_sum_le_int v S hnn hsum
    obtain ⟨picks, r, hr⟩ := sumLoop_exists S _ hpos
      ((S : ℤ) - (floorScaled v S).sum).toNat (floorScaled v S)
      (fun p hp => ((mem_posIdx _ p).mp hp).1)
      (by omega)
    exact ⟨picks, r, hr⟩

/-- C1 counterexample: the original claim quantifies over *every*
non-negative unit-sum vector and positive scale, but for
`v = [0.5, 0.5]` and `S = 1` every entry of `⌊v·S⌋` is zero, `pos_idx`
is empty, and the loop body's `random.choice([])` raises `IndexError`:
no random run returns a vector at all. -/
theorem sum_up_to_payload_scale_cex :
    (∀ q ∈ ([1/2, 1/2] : List ℚ), 0 ≤ q) ∧
    ([1/2, 1/2] : List ℚ).sum = 1 ∧ 0 < 1 ∧
    ¬ returnsSome [1/2, 1/2] 1 := by
  refine ⟨by intro q hq; simp at hq; rcases hq with rfl; norm_num,
    by norm_num, Nat.one_pos, ?_⟩
  rintro ⟨picks, x, hx⟩
  unfold sum_up_to at hx
  rw [floorScaled_half_half] at hx
  have hpos : posIdx ([0, 0] : List ℤ) = [] := by decide
  rw [hpos, sumLoop_none_of_posIdx_empty 1 [0, 0] (by decide) picks] at hx
  cases hx

/-- C1 witness: the amended theorem applied at the spec's concrete input
`v = [0.333, 0.333, 0.334]`, `S = 1000`; that run's floored vector is
already `[333, 333, 334]`, so the loop exits at once with three
non-negative weights summing to `1000` in which `334` occurs exactly
once. -/
theorem sum_up_to_payload_scale_witness :
    (∀ q ∈ ([333/1000, 333/1000, 334/1000] : List ℚ), 0 ≤ q) ∧
    ([333/1000, 333/1000, 334/1000] : List ℚ).sum = 1 ∧
    (∀ picks x,
        sum_up_to [333/1000, 333/1000, 334/1000] 1000 picks = some x →
        x.sum = (1000 : ℤ) ∧ ∀ z ∈ x, 0 ≤ z) ∧
    sum_up_to [333/1000, 333/1000, 334/1000] 1000 [] = some [333, 333, 334] ∧
    ([333, 333, 334] : List ℤ).sum = 1000 ∧
    ([333, 333, 334] : List ℤ).count 334 = 1 := by
  have hnn : ∀ q ∈ ([333/1000, 333/1000, 334/1000] : List ℚ), 0 ≤ q := by
    intro q hq
    simp at hq
    rcases hq with rfl | rfl | rfl <;> norm_num
  have hsum : ([333/1000, 333/1000, 334/1000] : List ℚ).sum = 1 := by norm_num
  exact ⟨hnn, hsum,
    (sum_up_to_payload_scale _ 1000 hnn hsum (by norm_num)).1,
    sum_up_to_spec_vector, by decide, by decide⟩

/-! ### Claim C2 -/
/-- C2 (amended): while the running sum is below `S` the incremented index
is drawn from `pos_idx`, the set of indices whose entry was *nonzero after
the floor step* (this set is computed once and never changes, and indeed
coincides throughout the loop with the set of currently-positive entries,
since untouched entries stay at zero).  Consequently an entry `v_i > 0`
that was strictly rounded down can be bumped above its floor in some run
*only if* its floor is nonzero: under that extra hypothesis a bumping run
exists, while an entry whose floor is zero stays at zero in every run (the
original claim promised a bump chance to every strictly-rounded-down
`v_i > 0`, which fails when `⌊v_i·S⌋ = 0` — see the counterexample). -/
theorem sum_up_to_bump_chance (v : List ℚ) (S : ℕ) (i : ℕ)
    (hnn : ∀ q ∈ v, 0 ≤ q) (hsum : v.sum = 1) (hi : i < v.length)
    (hipos : (floorScaled v S).getD i 0 ≠ 0)
    (hdown : (pyInt (v.getD i 0 * (S : ℚ)) : ℚ) < v.getD i 0 * (S : ℚ)) :
    canExceedFloor v S i ∧
    (∀ picks x j, sum_up_to v S picks = some x →
        (floorScaled v S).getD j 0 = 0 → x.getD j 0 = 0) := by
  have hilen : i < (floorScaled v S).length := by
    rwa [floorScaled_length]
  have himem : i ∈ posIdx (floorScaled v S) :=
    (mem_posIdx _ i).mpr ⟨hilen, hipos⟩
  constructor
  · have hltq : ((floorScaled v S).sum : ℚ) < ((S : ℤ) : ℚ) := by
      have h := floorScaled_sum_lt v S i hnn hi hdown
      rw [hsum, one_mul] at h
      exact_mod_cast h
    have hlt : (floorScaled v S).sum < (S : ℤ) := by exact_mod_cast hltq
    have hbsum : (bump (floorScaled v S) i).sum =
        (floorScaled v S).sum + 1 := sum_bump _ i hilen
    obtain ⟨picks, r, hr⟩ := sumLoop_exists S (posIdx (floorScaled v S))
      (List.ne_nil_of_mem himem)
      ((S : ℤ) - (bump (floorScaled v S) i).sum).toNat
      (bump (floorScaled v S) i)
      (fun p hp => by
        rw [bump_length]
        exact ((mem_posIdx _ p).mp hp).1)
      (by rw [hbsum]; omega)
    refine ⟨i :: picks, r, ?_, ?_⟩
    · unfold sum_up_to sumLoop
      simp only [List.sum_nil, if_neg (show ¬ (floorScaled v S).sum = (S : ℤ) by omega),
        if_pos himem]
      exact hr
    · have hm := sumLoop_mono S _ picks _ _ hr i
      rw [bump_getD_self _ i hilen] at hm
      omega
  · intro picks x j hx hj0
    have hjnot : j ∉ posIdx (floorScaled v S) := by
      rw [mem_posIdx]
      rintro ⟨-, hne⟩
      exact hne hj0
    unfold sum_up_to at hx
    rw [sumLoop_untouched S _ picks _ _ hx j hjnot, hj0]

lemma floorScaled_c2cex :
    floorScaled [999/1000, 1/1000] 100 = [99, 0] := by
  have h1 : (999/1000 : ℚ) * ((100 : ℕ) : ℚ) = 999/10 := by norm_num
  have h2 : (1/1000 : ℚ) * ((100 : ℕ) : ℚ) = 1/10 := by norm_num
  have e1 : pyInt ((999/1000 : ℚ) * ((100 : ℕ) : ℚ)) = 99 := by
    rw [h1, pyInt_eq_floor _ (by norm_num)]
    norm_num
  have e2 : pyInt ((1/1000 : ℚ) * ((100 : ℕ) : ℚ)) = 0 := by
    rw [h2, pyInt_eq_floor _ (by norm_num)]
    norm_num
  show [pyInt ((999/1000 : ℚ) * ((100 : ℕ) : ℚ)),
        pyInt ((1/1000 : ℚ) * ((100 : ℕ) : ℚ))] = [99, 0]
  rw [e1, e2]

/-- C2 counterexample: for `v = [0.999, 0.001]` and `S = 100` the entry
`v_1 = 0.001` is nonzero and strictly rounded down (`⌊0.1⌋ = 0 < 0.1`),
yet its floor is zero, so index 1 is never in `pos_idx` and *no* random
run of `sum_up_to` ever raises `x_1` above its floor — the claimed
positive probability of a bump does not exist. -/
theorem sum_up_to_bump_chance_cex :
    (0 : ℚ) < ([999/1000, 1/1000] : List ℚ).getD 1 0 ∧
    (pyInt (([999/1000, 1/1000] : List ℚ).getD 1 0 * ((100 : ℕ) : ℚ)) : ℚ) <
      ([999/1000, 1/1000] : List ℚ).getD 1 0 * ((100 : ℕ) : ℚ) ∧
    ¬ canExceedFloor [999/1000, 1/1000] 100 1 := by
  have hget : ([999/1000, 1/1000] : List ℚ).getD 1 0 = 1/1000 := rfl
  refine ⟨by rw [hget]; norm_num, ?_, ?_⟩
  · rw [hget]
    have h2 : (1/1000 : ℚ) * ((100 : ℕ) : ℚ) = 1/10 := by norm_num
    rw [h2, pyInt_eq_floor _ (by norm_num)]
    norm_num
  · rintro ⟨picks, x, hx, hlt⟩
    unfold sum_up_to at hx
    rw [floorScaled_c2cex] at hx hlt
    have hnot : (1 : ℕ) ∉ posIdx ([99, 0] : List ℤ) := by decide
    have := sumLoop_untouched 100 _ picks _ _ hx 1 hnot
    rw [this] at hlt
    exact lt_irrefl _ hlt

lemma floorScaled_c2wit :
    floorScaled [3/4, 1/4] 10 = [7, 2] := by
  have h1 : (3/4 : ℚ) * ((10 : ℕ) : ℚ) = 15/2 := by norm_num
  have h2 : (1/4 : ℚ) * ((10 : ℕ) : ℚ) = 5/2 := by norm_num
  have e1 : pyInt ((3/4 : ℚ) * ((10 : ℕ) : ℚ)) = 7 := by
    rw [h1, pyInt_eq_floor _ (by norm_num)]
    norm_num
  have e2 : pyInt ((1/4 : ℚ) * ((10 : ℕ) : ℚ)) = 2 := by
    rw [h2, pyInt_eq_floor _ (by norm_num)]
    norm_num
  show [pyInt ((3/4 : ℚ) * ((10 : ℕ) : ℚ)),
        pyInt ((1/4 : ℚ) * ((10 : ℕ) : ℚ))] = [7, 2]
  rw [e1, e2]

/-- C2 witness: the amended theorem applied at `v = [0.75, 0.25]`,
`S = 10`, index 0: the floors are `[7, 2]`, entry 0 is strictly rounded
down (`7 < 7.5`) with nonzero floor, and a run bumping it above 7
exists. -/
theorem sum_up_to_bump_chance_witness :
    (∀ q ∈ ([3/4, 1/4] : List ℚ), 0 ≤ q) ∧
    ([3/4, 1/4] : List ℚ).sum = 1 ∧
    (floorScaled [3/4, 1/4] 10).getD 0 0 ≠ 0 ∧
    (pyInt (([3/4, 1/4] : List ℚ).getD 0 0 * ((10 : ℕ) : ℚ)) : ℚ) <
      ([3/4, 1/4] : List ℚ).getD 0 0 * ((10 : ℕ) : ℚ) ∧
    canExceedFloor [3/4, 1/4] 10 0 := by
  have hnn : ∀ q ∈ ([3/4, 1/4] : List ℚ), 0 ≤ q := by
    intro q hq
    simp at hq
    rcases hq with rfl | rfl <;> norm_num
  have hsum : ([3/4, 1/4] : List ℚ).sum = 1 := by norm_num
  have hget : ([3/4, 1/4] : List ℚ).getD 0 0 = 3/4 := rfl
  have hipos : (floorScaled [3/4, 1/4] 10).getD 0 0 ≠ 0 := by
    rw [floorScaled_c2wit]
    decide
  have hdown : (pyInt (([3/4, 1/4] : List ℚ).getD 0 0 * ((10 : ℕ) : ℚ)) : ℚ) <
      ([3/4, 1/4] : List ℚ).getD 0 0 * ((10 : ℕ) : ℚ) := by
    rw [hget]
    have h1 : (3/4 : ℚ) * ((10 : ℕ) : ℚ) = 15/2 := by norm_num
    rw [h1, pyInt_eq_floor _ (by norm_num)]
    norm_num
  exact ⟨hnn, hsum, hipos, hdown,
    (sum_up_to_bump_chance [3/4, 1/4] 10 0 hnn hsum (by norm_num) hipos hdown).1⟩

/-! ### Claim C3 -/
/-- C3 (code bug): the claim — and the spec — say the raw engine score
is multiplied by `100/S²`, which for `S = 1000` maps the self-similarity
dot product `1000·1000 = 1000000` to exactly `100`.  The code computes
`100/(S^2)` with Python `^` = bitwise XOR: `1000 XOR 2 = 1002`, so the
factor is `100/1002` and the same document scores `100000000/1002 ≈
99800.4`, not `100`.  The spec's design notes flag exactly this line as
an intended-`S·S` slip, so the code, not the claim, is wrong. -/
theorem q5_q12_score_normalization_bug :
    (1000 ^^^ 2 : ℕ) = 1002 ∧
    normalize_score 1000 1000000 = 100000000 / 1002 ∧
    normalize_score_spec 1000 1000000 = 100 ∧
    normalize_score 1000 1000000 ≠ normalize_score_spec 1000 1000000 ∧
    normalize_scores 1000 [1000000] ≠ [100] := by
  have hxor : (1000 ^^^ 2 : ℕ) = 1002 := by decide
  refine ⟨hxor, ?_, ?_, ?_, ?_⟩
  · rw [normalize_score, hxor]; norm_num
  · rw [normalize_score_spec]; norm_num
  · rw [normalize_score, normalize_score_spec, hxor]; norm_num
  · rw [normalize_scores, List.map_singleton, normalize_score, hxor]
    intro h
    have := List.head_eq_of_cons_eq h
    norm_num at this

/-! ### Claim C4 -/
/-- C4 (amended): row `k` of the doc-topic matrix is paired with the
`k`-th persisted id for every `k` below the *shorter* of the two lengths;
when the number of rows differs from the length of the id list no error
of any kind is raised — `zip` silently truncates and the surplus rows or
ids are dropped (the claimed fatal ingestion error does not exist in the
code; see the counterexample). -/
theorem doc_topic_pairing (ids_corpus doc_tpc_rpr : List String) (k : ℕ)
    (hk : k < min ids_corpus.length doc_tpc_rpr.length) :
    (pair_ids_with_rpr ids_corpus doc_tpc_rpr).length =
      min ids_corpus.length doc_tpc_rpr.length ∧
    (pair_ids_with_rpr ids_corpus doc_tpc_rpr).getD k ("", "") =
      (ids_corpus.getD k "", doc_tpc_rpr.getD k "") := by
  have hlen : (pair_ids_with_rpr ids_corpus doc_tpc_rpr).length =
      min ids_corpus.length doc_tpc_rpr.length := List.length_zip _ _
  refine ⟨hlen, ?_⟩
  have hk1 : k < ids_corpus.length := lt_of_lt_of_le hk (min_le_left _ _)
  have hk2 : k < doc_tpc_rpr.length := lt_of_lt_of_le hk (min_le_right _ _)
  rw [List.getD_eq_getElem _ _ (by rw [hlen]; exact hk),
    List.getD_eq_getElem _ _ hk1, List.getD_eq_getElem _ _ hk2]
  exact List.getElem_zip

/-- C4 counterexample: with two persisted ids and three matrix rows the
code emits two records (pairing the first two rows) instead of failing:
ingestion proceeds with silently truncated data, contradicting the
claimed fatal error on length mismatch. -/
theorem doc_topic_pairing_cex :
    (["a", "b"] : List String).length ≠ (["r0", "r1", "r2"] : List String).length ∧
    pair_ids_with_rpr ["a", "b"] ["r0", "r1", "r2"] = [("a", "r0"), ("b", "r1")] ∧
    (pair_ids_with_rpr ["a", "b"] ["r0", "r1", "r2"]).length ≠ 0 := by
  refine ⟨by decide, by rfl, by decide⟩

/-- C4 witness: the amended pairing theorem applied to the mismatched
concrete lists at position 1. -/
theorem doc_topic_pairing_witness :
    1 < min (["a", "b"] : List String).length (["r0", "r1", "r2"] : List String).length ∧
    (pair_ids_with_rpr ["a", "b"] ["r0", "r1", "r2"]).getD 1 ("", "") =
      ((["a", "b"] : List String).getD 1 "", (["r0", "r1", "r2"] : List String).getD 1 "") :=
  ⟨by decide, (doc_topic_pairing ["a", "b"] ["r0", "r1", "r2"] 1 (by decide)).2⟩

/-! ### Claim C5 -/
/-- C5 (code bug): the well-formed timestamp `"2011-12-03 10:15:30"` is
normalized to `"2011-12-03T10:15:30.000000Z"`, and every character the
cleaner emits lies in the legal XML ranges — those parts of the claim
hold.  But the empty string does *not* map to the empty string: the
guard `time != "foo"` sends `""` into `strptime`, which raises
`ValueError`; only the literal `"foo"` and the NaN of a null cell yield
`""`.  The claim (and the spec) state the clear intent — empty in, empty
out — and the `"foo"` sentinel is debugging residue, so this is a code
bug. -/
theorem parseTimeINSTANT_behavior :
    parseTimeINSTANT (some "2011-12-03 10:15:30") =
      some "2011-12-03T10:15:30.000000Z" ∧
    parseTimeINSTANT (some "") = none ∧
    parseTimeINSTANT none = some "" ∧
    parseTimeINSTANT (some "foo") = some "" ∧
    (∀ s : String, ∀ c ∈ (clean_xml_string s).data,
      is_valid_xml_char_ordinal c.toNat = true) ∧
    clean_xml_string ⟨['a', 'b', Char.ofNat 1, 'c']⟩ = "abc" := by
  refine ⟨by decide, by decide, by decide, by decide, ?_, by decide⟩
  intro s c hc
  rw [clean_xml_string] at hc
  exact (List.mem_filter.mp hc).2

/-! ### Claim C6 -/
/-- C6 (amended): a zero engine status (JSON `responseHeader.status = 0`,
or XML status element `0`) maps to 200, and a non-zero engine status is
propagated unchanged together with the engine's error message — those
parts of the claim hold.  But a malformed or undecodable body does *not*
map to status 400 with the raw body as message: a non-JSON body is
re-parsed as XML, and when that also fails (or the required elements are
missing) an uncaught exception escapes; the initialization
`status_code = 400` is dead on every return path. -/
theorem solr_resp_normalization :
    (∀ err, from_requests_response (RespBody.jsonOk (some 0) err) =
      some (200, "")) ∧
    (∀ s msg, s ≠ 0 →
      from_requests_response (RespBody.jsonOk (some s) (some msg)) =
        some (s, msg)) ∧
    (∀ x, from_requests_response (RespBody.notJson (some (0, x))) =
      some (200, "")) ∧
    (∀ s msg, s ≠ 0 →
      from_requests_response (RespBody.notJson (some (s, some msg))) =
        some (s, msg)) ∧
    from_requests_response (RespBody.notJson none) = none := by
  refine ⟨fun err => by cases err <;> rfl, fun s msg hs => ?_,
    fun x => by cases x <;> rfl, fun s msg hs => ?_, rfl⟩
  · match s, hs with
    | Int.ofNat (n + 1), _ => rfl
    | Int.negSucc n, _ => rfl
    | 0, hs => exact absurd rfl hs
  · match s, hs with
    | Int.ofNat (n + 1), _ => rfl
    | Int.negSucc n, _ => rfl
    | 0, hs => exact absurd rfl hs

/-- C6 counterexample: a body that is neither decodable JSON nor XML
with a status element makes `from_requests_response` raise (the
`ET.fromstring` call in the bare `except` is itself unprotected), so no
`SolrResp` — in particular none with status 400 and the raw body as
message — is ever produced for a malformed response. -/
theorem solr_resp_normalization_cex :
    from_requests_response (RespBody.notJson none) = none ∧
    from_requests_response (RespBody.notJson none) ≠ some (400, "raw body") := by
  exact ⟨rfl, by decide⟩

/-- C6 witness: the amended theorem applied at concrete inputs — the 409
"already exists" acknowledgment is propagated as-is with its message,
and a zero-status header maps to 200. -/
theorem solr_resp_normalization_witness :
    ((409 : ℤ) ≠ 0 ∧
      from_requests_response
        (RespBody.jsonOk (some 409) (some "collection already exists")) =
        some (409, "collection already exists")) ∧
    from_requests_response (RespBody.jsonOk (some 0) none) = some (200, "") :=
  ⟨⟨by decide,
    solr_resp_normalization.2.1 409 "collection already exists" (by decide)⟩,
    solr_resp_normalization.1 none⟩

lemma batchLoop_join {α : Type} (batch_size : ℕ) :
    ∀ (l : List (ℕ × α)) (acc : List α),
      (batchLoop batch_size l acc).flatten = acc ++ l.map Prod.snd := by
  intro l
  induction l with
  | nil =>
    intro acc
    unfold batchLoop
    cases acc <;> simp
  | cons hd rest ih =>
    intro acc
    obtain ⟨index, doc⟩ := hd
    unfold batchLoop
    by_cases h : index % batch_size = 0 ∧ index ≠ 0
    · simp only [if_pos h, List.flatten, ih []]
      simp
    · simp only [if_neg h, ih (acc ++ [doc])]
      simp

/-! ### Claim C10 -/
/-- C10: for every document list and every batch size ≥ 1, the
concatenation of the batches `index_documents` hands to `index_batch`,
in order, is exactly the input list — no document is dropped, duplicated
or reordered, whatever the individual batch boundaries turn out to be.
(With `batch_size = 0` Python would raise `ZeroDivisionError` on `%`,
hence the bound.) -/
theorem index_documents_batches {α : Type} (json_docs : List α)
    (batch_size : ℕ) (_hbs : 1 ≤ batch_size) :
    (index_documents json_docs batch_size).flatten = json_docs := by
  rw [index_documents, batchLoop_join, List.nil_append, List.enum_map_snd]

/-- C10 witness: the batching theorem applied at a concrete three-element
list with batch size 2 (the loop flushes after appending the element at
index 2, so a single batch of three is sent — boundaries are uneven, yet
the concatenation is the input). -/
theorem index_documents_batches_witness :
    1 ≤ 2 ∧
    (index_documents ["d1", "d2", "d3"] 2).flatten = ["d1", "d2", "d3"] ∧
    index_documents ["d1", "d2", "d3"] 2 = [["d1", "d2", "d3"]] :=
  ⟨by decide, index_documents_batches ["d1", "d2", "d3"] 2 (by decide),
    by decide⟩

lemma query_last_id_eq (st : EngineState) (h : st.registry ≠ []) :
    query_last_id st = some (regMax st.registry) := by
  rw [query_last_id]
  cases hr : st.registry with
  | nil => exact absurd hr h
  | cons r rs => rfl

lemma foldl_max_init_le (rs : List RegDoc) :
    ∀ a : ℤ, a ≤ rs.foldl (fun x d => max x d.rid) a := by
  induction rs with
  | nil => intro a; exact le_refl a
  | cons r t ih =>
    intro a
    calc a ≤ max a r.rid := le_max_left _ _
      _ ≤ t.foldl (fun x d => max x d.rid) (max a r.rid) := ih _

lemma foldl_max_mem_le (rs : List RegDoc) :
    ∀ d ∈ rs, ∀ a : ℤ, d.rid ≤ rs.foldl (fun x d => max x d.rid) a := by
  induction rs with
  | nil => intro d hd; cases hd
  | cons r t ih =>
    intro d hd a
    rcases List.mem_cons.mp hd with rfl | hdt
    · calc d.rid ≤ max a d.rid := le_max_right _ _
        _ ≤ t.foldl (fun x d => max x d.rid) (max a d.rid) :=
          foldl_max_init_le t _
    · exact ih d hdt _

lemma regMax_ge (l : List RegDoc) (d : RegDoc) (hd : d ∈ l) :
    d.rid ≤ regMax l := by
  cases l with
  | nil => cases hd
  | cons r rs =>
    rw [regMax]
    rcases List.mem_cons.mp hd with rfl | hdt
    · exact foldl_max_init_le rs _
    · exact foldl_max_mem_le rs d hdt _

/-- Characterization of one successful `index_corpus` run: some
collection list containing the corpus name, the registry extended by
exactly one record for the corpus (with the id the code picks), and the
corpus documents written. -/
lemma index_corpus_run (st : EngineState) (name : String) (n : ℕ)
    (hnew : name ∉ st.colls) (hname : name ≠ corpusCol)
    (hnonempty : corpusCol ∈ st.colls → st.registry ≠ []) :
    ∃ cs : List String,
      index_corpus st name n =
        ⟨cs, st.registry ++
            [⟨if corpusCol ∈ st.colls then regMax st.registry + 1 else 1,
              name, []⟩],
          add_docs st.corpusDocs name n⟩ ∧
      name ∈ cs := by
  by_cases hC : corpusCol ∈ st.colls
  · have hC1 : corpusCol ∈ st.colls ++ [name] := List.mem_append_left _ hC
    cases hr : st.registry with
    | nil => exact absurd hr (hnonempty hC)
    | cons r rs =>
      refine ⟨st.colls ++ [name], ?_,
        List.mem_append_right _ (List.mem_singleton_self name)⟩
      simp [index_corpus, create_collection, hnew, hC1, hC,
        query_last_id, hr, regMax]
  · have hC1 : corpusCol ∉ st.colls ++ [name] := by
      intro h
      rcases List.mem_append.mp h with h' | h'
      · exact hC h'
      · exact hname (List.mem_singleton.mp h').symm
    refine ⟨st.colls ++ [name] ++ [corpusCol], ?_,
      List.mem_append_left _ (List.mem_append_right _ (List.mem_singleton_self name))⟩
    simp [index_corpus, create_collection, hnew, hC1, hC]

/-! ### Claim C7 -/
/-- C7: a second `index_corpus` on the same manifest observes 409 from
the collection pre-check of `create_collection` and returns at once —
the state after the second call equals the state after the first, so the
second call writes nothing to the registry or the corpus collection, and
the registry holds exactly one record for the corpus.  (Hypotheses: the
corpus is new to the engine, its name differs from the registry
collection's, and a pre-existing registry collection is non-empty —
otherwise the first call itself dies on `results.docs[0]`.) -/
theorem index_corpus_idempotent (st : EngineState) (name : String)
    (n n' : ℕ)
    (hnew : name ∉ st.colls)
    (hreg : ∀ r ∈ st.registry, r.corpus_name ≠ name)
    (hnonempty : corpusCol ∈ st.colls → st.registry ≠ [])
    (hname : name ≠ corpusCol) :
    index_corpus (index_corpus st name n) name n' = index_corpus st name n ∧
    ((index_corpus st name n).registry.filter
        (fun r => r.corpus_name == name)).length = 1 := by
  obtain ⟨cs, hrun, hmem⟩ := index_corpus_run st name n hnew hname hnonempty
  constructor
  · rw [hrun, index_corpus, create_collection]
    simp only [hmem, if_pos]
  · rw [hrun]
    simp only []
    rw [List.filter_append]
    have h1 : st.registry.filter (fun r => r.corpus_name == name) = [] := by
      rw [List.filter_eq_nil_iff]
      intro r hr
      simpa using hreg r hr
    rw [h1]
    simp

/-- C7 witness: the idempotence theorem applied on the empty engine with
corpus name `cordis`: the second call is the identity and the registry
holds exactly one `cordis` record. -/
theorem index_corpus_idempotent_witness :
    ("cordis" ∉ (⟨[], [], []⟩ : EngineState).colls) ∧
    ("cordis" ≠ corpusCol) ∧
    (index_corpus (index_corpus ⟨[], [], []⟩ "cordis" 5) "cordis" 7 =
        index_corpus ⟨[], [], []⟩ "cordis" 5 ∧
      ((index_corpus ⟨[], [], []⟩ "cordis" 5).registry.filter
          (fun r => r.corpus_name == "cordis")).length = 1) :=
  ⟨by decide, by decide,
    index_corpus_idempotent ⟨[], [], []⟩ "cordis" 5 7 (by decide)
      (by intro r hr; cases hr) (by intro h; cases h) (by decide)⟩

/-! ### Claim C8 -/
/-- C8: `index_corpus` assigns the new registry id as the highest
existing id plus one when the registry collection already existed (the
`sort=id desc, rows=1` query), and as 1 when the registry was just
created; in either case the new id strictly exceeds every id already in
the registry, so ids grow monotonically across successive indexings.
(The fresh-registry case needs the invariant that registry documents
live in the registry collection: no registry collection, no records.) -/
theorem index_corpus_id_assignment (st : EngineState) (name : String)
    (n : ℕ)
    (hnew : name ∉ st.colls) (hname : name ≠ corpusCol)
    (hnonempty : corpusCol ∈ st.colls → st.registry ≠ [])
    (hfresh : corpusCol ∉ st.colls → st.registry = []) :
    ∃ r : RegDoc,
      (index_corpus st name n).registry = st.registry ++ [r] ∧
      r.corpus_name = name ∧
      r.rid = (if corpusCol ∈ st.colls then regMax st.registry + 1 else 1) ∧
      ∀ d ∈ st.registry, d.rid < r.rid := by
  obtain ⟨cs, hrun, -⟩ := index_corpus_run st name n hnew hname hnonempty
  refine ⟨⟨if corpusCol ∈ st.colls then regMax st.registry + 1 else 1,
    name, []⟩, by rw [hrun], rfl, rfl, ?_⟩
  intro d hd
  by_cases hC : corpusCol ∈ st.colls
  · simp only [if_pos hC]
    have := regMax_ge st.registry d hd
    omega
  · rw [hfresh hC] at hd
    cases hd

/-- C8 witness: the id-assignment theorem applied to an engine whose
registry already holds records with ids 1 and 3: the new corpus gets id
4, strictly above both. -/
theorem index_corpus_id_assignment_witness :
    ("cordis" ∉ (⟨["Corpora", "olda", "oldb"],
        [⟨1, "olda", []⟩, ⟨3, "oldb", []⟩], []⟩ : EngineState).colls) ∧
    (∃ r : RegDoc,
      (index_corpus ⟨["Corpora", "olda", "oldb"],
          [⟨1, "olda", []⟩, ⟨3, "oldb", []⟩], []⟩ "cordis" 2).registry =
        [⟨1, "olda", []⟩, ⟨3, "oldb", []⟩] ++ [r] ∧
      r.corpus_name = "cordis" ∧
      r.rid = (if corpusCol ∈ (⟨["Corpora", "olda", "oldb"],
          [⟨1, "olda", []⟩, ⟨3, "oldb", []⟩], []⟩ : EngineState).colls
        then regMax [⟨1, "olda", []⟩, ⟨3, "oldb", []⟩] + 1 else 1) ∧
      ∀ d ∈ ([⟨1, "olda", []⟩, ⟨3, "oldb", []⟩] : List RegDoc),
        d.rid < r.rid) :=
  ⟨by decide,
    index_corpus_id_assignment
      ⟨["Corpora", "olda", "oldb"], [⟨1, "olda", []⟩, ⟨3, "oldb", []⟩], []⟩
      "cordis" 2 (by decide) (by decide)
      (by intro h; decide) (by intro h; exact absurd (by decide) h)⟩

lemma delete_models_registry (ok : String → Bool) :
    ∀ (ms : List String) (st : EngineState),
      ((delete_models ok st ms).1).registry = st.registry := by
  intro ms
  induction ms with
  | nil => intro st; rfl
  | cons m t ih =>
    intro st
    rw [delete_models]
    by_cases h : ok m
    · simp only [if_pos h]
      exact ih (remove_coll st m)
    · simp only [if_neg h]

lemma delete_models_trace_of_all (ok : String → Bool) :
    ∀ (ms : List String) (st : EngineState), (∀ m ∈ ms, ok m = true) →
      (delete_models ok st ms).2.1 = ms.map EngineOp.deleteColl ∧
      (delete_models ok st ms).2.2 = true := by
  intro ms
  induction ms with
  | nil => intro st _; exact ⟨rfl, rfl⟩
  | cons m t ih =>
    intro st hall
    have hm : ok m = true := hall m (List.mem_cons_self m t)
    rw [delete_models]
    simp only [if_pos hm]
    obtain ⟨h1, h2⟩ := ih (remove_coll st m)
      (fun x hx => hall x (List.mem_cons_of_mem m hx))
    rw [List.map_cons]
    exact ⟨by rw [h1], h2⟩

lemma delete_models_all_of_success (ok : String → Bool) :
    ∀ (ms : List String) (st : EngineState),
      (delete_models ok st ms).2.2 = true → ∀ m ∈ ms, ok m = true := by
  intro ms
  induction ms with
  | nil => intro st _ m hm; cases hm
  | cons m t ih =>
    intro st hsucc x hx
    rw [delete_models] at hsucc
    by_cases h : ok m
    · rcases List.mem_cons.mp hx with rfl | hxt
      · exact h
      · simp only [if_pos h] at hsucc
        exact ih (remove_coll st m) hsucc x hxt
    · simp only [if_neg h] at hsucc
      cases hsucc

lemma delete_models_ops (ok : String → Bool) :
    ∀ (ms : List String) (st : EngineState),
      ∀ op ∈ (delete_models ok st ms).2.1,
        ∃ m ∈ ms, op = EngineOp.deleteColl m := by
  intro ms
  induction ms with
  | nil => intro st op hop; cases hop
  | cons m t ih =>
    intro st op hop
    rw [delete_models] at hop
    by_cases h : ok m
    · simp only [if_pos h] at hop
      rcases List.mem_cons.mp hop with rfl | hrest
      · exact ⟨m, List.mem_cons_self m t, rfl⟩
      · obtain ⟨x, hx, rfl⟩ := ih (remove_coll st m) op hrest
        exact ⟨x, List.mem_cons_of_mem m hx, rfl⟩
    · simp only [if_neg h] at hop
      rcases List.mem_singleton.mp hop with rfl
      exact ⟨m, List.mem_cons_self m t, rfl⟩

/-! ### Claim C9 -/
/-- C9: `delete_corpus` issues its engine writes in the order: corpus
collection delete, then one delete per model named in the registry
record's `models` array (in array order), and only then the delete of
the registry record itself.  The registry-record delete is issued only
in runs where every model delete succeeded — equivalently, whenever it
appears in the trace the trace is exactly the full ordered sequence —
and if any model delete fails, the registry record is still present in
the final state, naming what remains to be cleaned up. -/
theorem delete_corpus_ordering (st : EngineState) (name : String)
    (ok : String → Bool) (okDoc : Bool) (r : RegDoc)
    (hok : ok name = true)
    (hfind : st.registry.find? (fun d => d.corpus_name == name) = some r) :
    (EngineOp.deleteDoc corpusCol r.rid ∈ (delete_corpus st name ok okDoc).2 →
      (delete_corpus st name ok okDoc).2 =
        EngineOp.deleteColl name :: r.models.map EngineOp.deleteColl ++
          [EngineOp.deleteDoc corpusCol r.rid]) ∧
    ((∃ m ∈ r.models, ok m = false) →
      r ∈ (delete_corpus st name ok okDoc).1.registry ∧
      EngineOp.deleteDoc corpusCol r.rid ∉ (delete_corpus st name ok okDoc).2) := by
  have hfind1 : (remove_coll st name).registry.find?
      (fun d => d.corpus_name == name) = some r := hfind
  rw [delete_corpus]
  simp only [if_pos hok, hfind1]
  by_cases hsucc : (delete_models ok (remove_coll st name) r.models).2.2 = true
  · have hall := delete_models_all_of_success ok r.models _ hsucc
    obtain ⟨htrace, -⟩ := delete_models_trace_of_all ok r.models
      (remove_coll st name) hall
    constructor
    · intro _
      cases okDoc <;> simp [hsucc, htrace]
    · rintro ⟨m, hm, hmfalse⟩
      exact absurd (hall m hm) (by rw [hmfalse]; decide)
  · have hsucc' : (delete_models ok (remove_coll st name) r.models).2.2 = false :=
      Bool.eq_false_iff.mpr hsucc
    have hnotdoc : EngineOp.deleteDoc corpusCol r.rid ∉
        EngineOp.deleteColl name ::
          (delete_models ok (remove_coll st name) r.models).2.1 := by
      intro hmem
      rcases List.mem_cons.mp hmem with heq | hrest
      · cases heq
      · obtain ⟨x, -, hx⟩ := delete_models_ops ok r.models _ _ hrest
        cases hx
    constructor
    · intro hmem
      rw [hsucc'] at hmem ⊢
      simp only [Bool.false_eq_true, if_false] at hmem ⊢
      exact absurd hmem hnotdoc
    · intro _
      rw [hsucc']
      simp only [Bool.false_eq_true, if_false]
      refine ⟨?_, hnotdoc⟩
      rw [delete_models_registry]
      exact List.mem_of_find?_eq_some hfind1

/-- C9 witness: the ordering theorem applied to an engine holding corpus
`cordis` with one model `mallet-25`, with an oracle that grants the
corpus-collection delete but fails the model delete: the registry record
survives and no registry-document delete is issued. -/
theorem delete_corpus_ordering_witness :
    ((fun m => m == "cordis") "cordis" = true) ∧
    ((⟨["cordis", "Corpora", "mallet-25"],
        [⟨7, "cordis", ["mallet-25"]⟩], []⟩ : EngineState).registry.find?
      (fun d => d.corpus_name == "cordis") = some ⟨7, "cordis", ["mallet-25"]⟩) ∧
    ((∃ m ∈ ["mallet-25"], (fun m => m == "cordis") m = false) →
      (⟨7, "cordis", ["mallet-25"]⟩ : RegDoc) ∈
        (delete_corpus ⟨["cordis", "Corpora", "mallet-25"],
          [⟨7, "cordis", ["mallet-25"]⟩], []⟩ "cordis"
          (fun m => m == "cordis") true).1.registry ∧
      EngineOp.deleteDoc corpusCol (7 : ℤ) ∉
        (delete_corpus ⟨["cordis", "Corpora", "mallet-25"],
          [⟨7, "cordis", ["mallet-25"]⟩], []⟩ "cordis"
          (fun m => m == "cordis") true).2) :=
  ⟨by decide, by decide,
    (delete_corpus_ordering
      ⟨["cordis", "Corpora", "mallet-25"], [⟨7, "cordis", ["mallet-25"]⟩], []⟩
      "cordis" (fun m => m == "cordis") true
      ⟨7, "cordis", ["mallet-25"]⟩ (by decide) (by decide)).2⟩

end EWB
